import Mathlib

/-!
# SortedSetKeyModel (sortedsetkey.cpp)

A shallow embedding of `SortedSetKeyModel`, the sorted-set key model of the
value editor: `getData`, `updateRow`, `addRow`, `removeRow`,
`addSortedSetRow`, `deleteSortedSetRow` and `addLoadedRowsToCache` are
translated from `src/app/models/key-models/sortedsetkey.cpp`.

Conventions of the embedding:

* `QByteArray` and `QString` are both `String`; the conversions between them
  and out of a `QVariant` that holds text (`toByteArray`, `toString`) are the
  identity.
* The model object is a record that is passed through every operation; the
  signals emitted on `m_notifier` and the commands given to `m_connection`
  are appended to lists held in that record.
* The connection is external: how it answers is an arbitrary function of the
  commands it has received so far and of the current command.
* The row cache (`MappedCache`), `isRowLoaded`, `isRowValid`,
  `setRemovedIfEmpty` and the `Roles` enum live in headers that are not among
  the sources; they are modelled from the specification and marked so.
-/

namespace SortedSetKey

/-! ## Values -/

/-- The pair `QPair<QByteArray, QByteArray>` held by the cache: member first, score text second. -/
abbrev Row := String × String

/-- The values a `QVariant` returned by `getData` can hold. `invalid` is the
default-constructed `QVariant()`. A `double` is held as a rational. -/
inductive QVariant where
  | invalid
  | bytes (b : String)
  | double (d : ℚ)
  | int (n : Int)
  deriving DecidableEq

/-- A `QVariantMap` whose values are text: the field map given to `addRow` and `updateRow`. -/
abbrev QVariantMap := List (String × String)

/-- The expression `row[key]` on a const `QVariantMap`, then `toByteArray()` or
`toString()`: the text stored under `key`, or the empty text when the key is
missing (a default-constructed `QVariant` converts to empty text). -/
def QVariantMap.at (row : QVariantMap) (key : String) : String :=
  (row.lookup key).getD ""

/-- The call `QByteArray::toDouble()`, made without the `ok` out-parameter. `parse` is
the text-to-number conversion (`none` when the text is not a number); without
`ok` the caller only sees the number, and Qt returns `0.0` when the conversion
fails. -/
def toDouble (parse : String → Option ℚ) (b : String) : ℚ :=
  (parse b).getD 0

/-! ## Machine arithmetic -/

/-- The value of a 32-bit `int` that an integer result wraps to (two's complement). -/
def wrapInt32 (x : Int) : Int := (x + 2147483648) % 4294967296 - 2147483648


/-- Two to the power 64. -/
def U64 : Nat := 18446744073709551616

/-- Addition of `unsigned long long` values. -/
def u64add (a b : Nat) : Nat := (a + b) % U64

/-- Subtraction of `unsigned long long` values. -/
def u64sub (a b : Nat) : Nat := (a % U64 + (U64 - b % U64)) % U64

/-! ## The row cache -/

/-- A range of row indices `{first, last}`, both bounds included. -/
abbrev CacheRange := Nat × Nat

/-- Whether the range covers the row index `i`. -/
def CacheRange.covers (r : CacheRange) (i : Int) : Bool :=
  decide ((r.1 : Int) ≤ i) && decide (i ≤ (r.2 : Int))

/-- Position of the row index `i` in the rows of a range: `i - first`. -/
def CacheRange.offset (r : CacheRange) (i : Int) : Nat := (i - (r.1 : Int)).toNat

/-- Number of row indices in a range (zero when `last < first`). -/
def CacheRange.size (r : CacheRange) : Nat := r.2 + 1 - r.1

/-- Whether two ranges have no row index in common. -/
def CacheRange.disjoint (r q : CacheRange) : Bool :=
  decide (r.2 < q.1) || decide (q.2 < r.1) || decide (r.2 < r.1) || decide (q.2 < q.1)

/-- Modelled from the spec: the RangeCache of §3 and §4.1 (the class of
`m_rowsCache`, declared in a header that is not among the sources): a mapping
from row-index ranges to sequences of rows. The entries are kept in merge
order, the most recent first, so that a lookup is last-write-wins. -/
structure RangeCache where
  entries : List (CacheRange × List Row)
  deriving DecidableEq

namespace RangeCache

/-- Modelled from the spec: the entry a row index is looked up in, the most
recently merged range that covers it (RangeCache of §4.1, not among the sources). -/
def target (c : RangeCache) (i : Int) : Option (CacheRange × List Row) :=
  c.entries.find? (fun e => e.1.covers i)

/-- Modelled from the spec: `isLoaded(index)` of §4.1 (`isRowLoaded` of the
cache, not among the sources): true iff the index falls inside a merged range. -/
def isRowLoaded (c : RangeCache) (i : Int) : Bool :=
  c.entries.any (fun e => e.1.covers i)

/-- Modelled from the spec: `get(index)` of §4.1 as a partial function: the row
stored for index `i` in its target range, when there is one. -/
def get? (c : RangeCache) (i : Int) : Option Row :=
  match c.target i with
  | none => none
  | some e => e.2[e.1.offset i]?

/-- Modelled from the spec: `get(index)` of §4.1 (`m_rowsCache[rowIndex]`, not
among the sources). Its precondition is that the row is loaded; outside it the
spec leaves the result undefined and the model gives a pair of empty texts. -/
def get (c : RangeCache) (i : Int) : Row :=
  (c.get? i).getD ("", "")

/-- Replace the row of index `i` in the first entry that covers it. -/
def replaceIn (i : Int) (row : Row) :
    List (CacheRange × List Row) → List (CacheRange × List Row)
  | [] => []
  | e :: es =>
    if e.1.covers i then (e.1, e.2.set (e.1.offset i) row) :: es
    else e :: replaceIn i row es

/-- Modelled from the spec: `replace(index, newRow)` of §4.1 (not among the
sources): overwrites the row in place, the ranges stay as they are. -/
def replace (c : RangeCache) (i : Int) (row : Row) : RangeCache :=
  ⟨replaceIn i row c.entries⟩

/-- The index after the last index covered by any range: the logical end of
the cached collection (0 for a cache without ranges). -/
def endIndex (c : RangeCache) : Nat :=
  c.entries.foldr (fun e acc => max (e.1.2 + 1) acc) 0

/-- Modelled from the spec: `mergeRange` of §4.1 (`addLoadedRange`, not among
the sources), called with the range and the rows of a fetch: records the rows
under the range, without validating overlap with existing ranges. -/
def addLoadedRange (c : RangeCache) (range : CacheRange) (rows : List Row) : RangeCache :=
  ⟨(range, rows) :: c.entries⟩

/-- Modelled from the spec: `append(row)` of §4.1 (`push_back`, not among the
sources): adds one row at the logical end of the cached collection. -/
def push_back (c : RangeCache) (row : Row) : RangeCache :=
  c.addLoadedRange (c.endIndex, c.endIndex) [row]

/-- Remove the row of index `i` from the first entry that covers it: the rows
after it in that range move down by one and the range loses its last index; a
range of one index disappears. -/
def removeIn (i : Int) :
    List (CacheRange × List Row) → List (CacheRange × List Row)
  | [] => []
  | e :: es =>
    if e.1.covers i then
      if e.1.1 = e.1.2 then es
      else ((e.1.1, e.1.2 - 1), e.2.eraseIdx (e.1.offset i)) :: es
    else e :: removeIn i es

/-- Modelled from the spec: `removeAt(index)` of §4.1 (not among the sources):
removes the row at the index, shifting the following rows of the same range
down by one. -/
def removeAt (c : RangeCache) (i : Int) : RangeCache :=
  ⟨removeIn i c.entries⟩

/-- The sum of the sizes of the ranges of the cache. It counts a row index
once for every range that covers it, so it is the number of loaded rows only
when the ranges do not overlap (`sizeSum_eq_loadedCount`). -/
def sizeSum (c : RangeCache) : Nat :=
  (c.entries.map (fun e => e.1.size)).sum

/-- Modelled from the spec: the invariant of the RangeCache in §3: its ranges never overlap. -/
def NoOverlap (c : RangeCache) : Prop :=
  c.entries.Pairwise (fun e f => e.1.disjoint f.1 = true)

instance (c : RangeCache) : Decidable c.NoOverlap := by
  unfold NoOverlap
  infer_instance

/-- Modelled from the spec: the number of rows currently loaded in the cache
(§3): the number of row indices for which `isRowLoaded` holds, each counted
once. Every loaded index is below `endIndex` (`isRowLoaded_lt_endIndex`). -/
def loadedCount (c : RangeCache) : Nat :=
  (List.range c.endIndex).countP (fun i : Nat => c.isRowLoaded (i : Int))

end RangeCache

/-! ## The connection and the notifier -/

/-- One call `m_connection->commandSync(parts, dbIndex)`. -/
structure Command where
  parts : List String
  dbIndex : Int
  deriving DecidableEq

/-- What `commandSync` does: it throws `RedisClient::Connection::Exception`
(`raises`, with the text of `e.what()`), or it returns a response; `value n`
is a response for which `result.value().toInt()` is `n`. -/
inductive Reply where
  | raises (what : String)
  | value (n : Int)
  deriving DecidableEq

/-- The connection, an external collaborator. `respond` is its behaviour: the
reply to a command, given the commands received before it. `sent` lists the
commands it has received, oldest first. -/
structure Connection where
  respond : List Command → Command → Reply
  sent : List Command

/-- The call `commandSync`: the reply, and the connection having received the command. -/
def Connection.commandSync (c : Connection) (cmd : Command) : Reply × Connection :=
  (c.respond c.sent cmd, { c with sent := c.sent ++ [cmd] })

/-- A signal emitted on `m_notifier`. -/
inductive Signal where
  | error (msg : String)
  | removed
  deriving DecidableEq

/-! ## The model -/

/-- Modelled from the spec: the role identifier of the field `row` (§6
`getRoles`); the `Roles` enum is declared in a header that is not among the
sources. The three identifiers are distinct integers. -/
def Roles.RowNumber : Int := 257

/-- Modelled from the spec: the role identifier of the field `value` (§6
`getRoles`); the `Roles` enum is not among the sources. -/
def Roles.Value : Int := 258

/-- Modelled from the spec: the role identifier of the field `score` (§6
`getRoles`); the `Roles` enum is not among the sources. -/
def Roles.Score : Int := 259

/-- The state of a `SortedSetKeyModel` (§4.3): key, database index, row count,
row cache and connection, with the removed flag of the key and the signals
emitted so far on `m_notifier`, oldest first. The row count is an integer (§3). -/
structure SortedSetKeyModel where
  m_keyFullPath : String
  m_dbIndex : Int
  m_rowCount : Int
  m_rowsCache : RangeCache
  m_connection : Connection
  m_isKeyRemoved : Bool
  m_notifier : List Signal

namespace SortedSetKeyModel

/-- The statement `emit m_notifier->error(msg)`. -/
def emitError (m : SortedSetKeyModel) (msg : String) : SortedSetKeyModel :=
  { m with m_notifier := m.m_notifier ++ [Signal.error msg] }

/-- Modelled from the spec: `isRowLoaded` of the model (base class, not among
the sources): the loaded-check against the RangeCache (§2, §4.1). -/
def isRowLoaded (m : SortedSetKeyModel) (rowIndex : Int) : Bool :=
  m.m_rowsCache.isRowLoaded rowIndex

/-- Modelled from the spec: the validity rule `isRowValid` of §4.3 (base
class, not among the sources): both the member and the score field are present
and non-empty in the given map. -/
def isRowValid (row : QVariantMap) : Bool :=
  (row.lookup "value").any (fun v => v != "") && (row.lookup "score").any (fun v => v != "")

/-- Modelled from the spec: `setRemovedIfEmpty` (base class, not among the
sources): when the row count is zero the key goes to the removed state, which
is signalled to the collaborators (§4.3 `removeRow`). -/
def setRemovedIfEmpty (m : SortedSetKeyModel) : SortedSetKeyModel :=
  if m.m_rowCount = 0 then
    { m with m_isKeyRemoved := true, m_notifier := m.m_notifier ++ [Signal.removed] }
  else m

/-- The method `SortedSetKeyModel::getData`. The sum `rowIndex + 1` is an `int`
and wraps at 32 bits. -/
def getData (parse : String → Option ℚ) (m : SortedSetKeyModel) (rowIndex : Int)
    (dataRole : Int) : QVariant :=
  if !m.isRowLoaded rowIndex then QVariant.invalid
  else
    let row : Row := m.m_rowsCache.get rowIndex
    if dataRole = Roles.Value then QVariant.bytes row.1
    else if dataRole = Roles.Score then QVariant.double (toDouble parse row.2)
    else if dataRole = Roles.RowNumber then QVariant.int (wrapInt32 (rowIndex + 1))
    else QVariant.invalid

/-- The method `SortedSetKeyModel::addSortedSetRow`: the model afterwards and the returned `bool`. -/
def addSortedSetRow (m : SortedSetKeyModel) (value : String) (score : String) :
    SortedSetKeyModel × Bool :=
  match m.m_connection.commandSync ⟨["ZADD", m.m_keyFullPath, score, value], m.m_dbIndex⟩ with
  | (Reply.raises what, conn) =>
    (({ m with m_connection := conn }).emitError ("Connection error: " ++ what), false)
  | (Reply.value n, conn) => ({ m with m_connection := conn }, decide (n = 1))

/-- The method `SortedSetKeyModel::deleteSortedSetRow`. -/
def deleteSortedSetRow (m : SortedSetKeyModel) (value : String) : SortedSetKeyModel :=
  match m.m_connection.commandSync ⟨["ZREM", m.m_keyFullPath, value], m.m_dbIndex⟩ with
  | (Reply.raises what, conn) =>
    ({ m with m_connection := conn }).emitError ("Connection error: " ++ what)
  | (Reply.value _, conn) => { m with m_connection := conn }

/-- The method `SortedSetKeyModel::updateRow`. -/
def updateRow (m : SortedSetKeyModel) (rowIndex : Int) (row : QVariantMap) :
    SortedSetKeyModel :=
  if !m.isRowLoaded rowIndex || !isRowValid row then m.emitError "Invalid row"
  else
    let cachedRow : Row := m.m_rowsCache.get rowIndex
    let valueChanged : Bool := cachedRow.1 != row.at "value"
    let scoreChanged : Bool := cachedRow.2 != row.at "score"
    let newRow : Row :=
      (if valueChanged then row.at "value" else cachedRow.1,
       if scoreChanged then row.at "score" else cachedRow.2)
    let m1 := m.deleteSortedSetRow cachedRow.1
    let m2 := (m1.addSortedSetRow newRow.1 newRow.2).1
    { m2 with m_rowsCache := m2.m_rowsCache.replace rowIndex newRow }

/-- The method `SortedSetKeyModel::addRow`. -/
def addRow (m : SortedSetKeyModel) (row : QVariantMap) : SortedSetKeyModel :=
  if !isRowValid row then m.emitError "Invalid row"
  else
    let cachedRow : Row := (row.at "value", row.at "score")
    match m.addSortedSetRow cachedRow.1 cachedRow.2 with
    | (m1, true) =>
      { m1 with m_rowsCache := m1.m_rowsCache.push_back cachedRow, m_rowCount := m1.m_rowCount + 1 }
    | (m1, false) => m1

/-- The method `SortedSetKeyModel::removeRow`. -/
def removeRow (m : SortedSetKeyModel) (i : Int) : SortedSetKeyModel :=
  if !m.isRowLoaded i then m
  else
    let value : String := (m.m_rowsCache.get i).1
    match m.m_connection.commandSync ⟨["ZREM", m.m_keyFullPath, value], m.m_dbIndex⟩ with
    | (Reply.raises what, conn) =>
      ({ m with m_connection := conn }).emitError ("Connection error: " ++ what)
    | (Reply.value _, conn) =>
      setRemovedIfEmpty
        { m with m_connection := conn, m_rowCount := m.m_rowCount - 1,
                 m_rowsCache := m.m_rowsCache.removeAt i }

/-- The loop of `addLoadedRowsToCache`: `result` holds the pairs built so far;
`none` when the list ends after the first half of a pair (the function reports
the error and returns), otherwise the final `result`. -/
def decodeRows : List String → List Row → Option (List Row)
  | [], result => some result
  | [_], _ => none
  | first :: second :: rest, result => decodeRows rest (result ++ [(first, second)])

/-- The method `SortedSetKeyModel::addLoadedRowsToCache`. The elements of `rows` are the
texts of a reply; `rowStartId` is the number held by the `QVariant`, which
`toULongLong()` reads as an unsigned 64-bit value. -/
def addLoadedRowsToCache (m : SortedSetKeyModel) (rows : List String) (rowStartId : Nat) :
    SortedSetKeyModel :=
  match decodeRows rows [] with
  | none => m.emitError "Data was loaded from server partially."
  | some result =>
    let rowStart : Nat := rowStartId % U64
    { m with m_rowsCache :=
        m.m_rowsCache.addLoadedRange (rowStart, u64sub (u64add rowStart result.length) 1) result }

/-- Modelled from the spec: the number of rows currently loaded in the cache of
the model (§3), that is the number of row indices for which `isRowLoaded` holds. -/
def loadedCount (m : SortedSetKeyModel) : Nat := m.m_rowsCache.loadedCount

end SortedSetKeyModel

/-! ## A decimal reader and sample states, used to evaluate the model -/

/-- The value of a list of decimal digits, or `none` when a character is not a digit. -/
def digitsValue : List Char → Nat → Option Nat
  | [], acc => some acc
  | c :: cs, acc => if c.isDigit then digitsValue cs (10 * acc + (c.toNat - 48)) else none

/-- A text-to-number conversion for plain decimal texts `[-]digits[.digits]`;
`none` for any other text. -/
def parseDecimal (b : String) : Option ℚ :=
  let cs := b.toList
  let neg := cs.head? == some '-'
  let body := if neg then cs.drop 1 else cs
  let ip := body.takeWhile (fun c => c != '.')
  let fp := (body.dropWhile (fun c => c != '.')).drop 1
  if ip.isEmpty then none
  else
    match digitsValue ip 0, digitsValue fp 0 with
    | some a, some f =>
      let v : ℚ := ((a * 10 ^ fp.length + f : Nat) : ℚ) / ((10 ^ fp.length : Nat) : ℚ)
      some (if neg then -v else v)
    | _, _ => none

/-- A connection that answers every command with the integer 1. -/
def okConnection : Connection := ⟨fun _ _ => Reply.value 1, []⟩

/-- A connection that raises on every `ZREM` and answers 1 to any other command. -/
def zremDownConnection : Connection :=
  ⟨fun _ cmd => if cmd.parts.head? = some "ZREM" then Reply.raises "timeout" else Reply.value 1, []⟩

/-- A connection that raises on every `ZADD` and answers 1 to any other command. -/
def zaddDownConnection : Connection :=
  ⟨fun _ cmd => if cmd.parts.head? = some "ZADD" then Reply.raises "timeout" else Reply.value 1, []⟩

/-- A model of key `k` in database 0 with the given row count, cache and connection. -/
def sample (count : Int) (cache : RangeCache) (conn : Connection) : SortedSetKeyModel :=
  ⟨"k", 0, count, cache, conn, false, []⟩

/-- The cache holding the rows `("a","1.0")` and `("b","2.0")` as the range `{0, 1}`. -/
def cacheAB : RangeCache := ⟨[((0, 1), [("a", "1.0"), ("b", "2.0")])]⟩

/-- The state reached from an empty cache and row count 2 when the same page of
two rows is fetched twice: the ranges `{0, 1}` and `{0, 1}`. -/
def refetched : SortedSetKeyModel :=
  ((sample 2 ⟨[]⟩ okConnection).addLoadedRowsToCache ["a", "1.0", "b", "2.0"] 0).addLoadedRowsToCache
    ["a", "1.0", "b", "2.0"] 0

/-- Modelled from the spec: the row-count invariant of §3: the row count is at
least the number of rows currently loaded in the cache, that is the number of
row indices for which `isRowLoaded` holds. -/
def RowCountInvariant (m : SortedSetKeyModel) : Prop :=
  (m.loadedCount : Int) ≤ m.m_rowCount

instance (m : SortedSetKeyModel) : Decidable (RowCountInvariant m) := by
  unfold RowCountInvariant
  infer_instance

/-- The rows the loop of `addLoadedRowsToCache` builds from a list of even
length, read off the list two elements at a time. -/
def pairUp : List String → List Row
  | first :: second :: rest => (first, second) :: pairUp rest
  | _ => []

/-! ## Lemmas on the operations -/

open SortedSetKeyModel

theorem emitError_fields (m : SortedSetKeyModel) (msg : String) :
    (m.emitError msg).m_connection = m.m_connection ∧
    (m.emitError msg).m_rowsCache = m.m_rowsCache ∧
    (m.emitError msg).m_rowCount = m.m_rowCount ∧
    (m.emitError msg).m_notifier = m.m_notifier ++ [Signal.error msg] :=
  ⟨rfl, rfl, rfl, rfl⟩

theorem addSortedSetRow_fields (m : SortedSetKeyModel) (value score : String) :
    (m.addSortedSetRow value score).1.m_rowsCache = m.m_rowsCache ∧
    (m.addSortedSetRow value score).1.m_rowCount = m.m_rowCount ∧
    (m.addSortedSetRow value score).1.m_keyFullPath = m.m_keyFullPath ∧
    (m.addSortedSetRow value score).1.m_dbIndex = m.m_dbIndex ∧
    (m.addSortedSetRow value score).1.m_connection.sent =
      m.m_connection.sent ++ [⟨["ZADD", m.m_keyFullPath, score, value], m.m_dbIndex⟩] := by
  unfold addSortedSetRow Connection.commandSync
  cases m.m_connection.respond m.m_connection.sent
      ⟨["ZADD", m.m_keyFullPath, score, value], m.m_dbIndex⟩ <;>
    simp [emitError]

theorem deleteSortedSetRow_fields (m : SortedSetKeyModel) (value : String) :
    (m.deleteSortedSetRow value).m_rowsCache = m.m_rowsCache ∧
    (m.deleteSortedSetRow value).m_rowCount = m.m_rowCount ∧
    (m.deleteSortedSetRow value).m_keyFullPath = m.m_keyFullPath ∧
    (m.deleteSortedSetRow value).m_dbIndex = m.m_dbIndex ∧
    (m.deleteSortedSetRow value).m_connection.respond = m.m_connection.respond ∧
    (m.deleteSortedSetRow value).m_connection.sent =
      m.m_connection.sent ++ [⟨["ZREM", m.m_keyFullPath, value], m.m_dbIndex⟩] := by
  unfold deleteSortedSetRow Connection.commandSync
  cases m.m_connection.respond m.m_connection.sent
      ⟨["ZREM", m.m_keyFullPath, value], m.m_dbIndex⟩ <;>
    simp [emitError]

theorem any_covers_replaceIn (i : Int) (row : Row) (j : Int)
    (es : List (CacheRange × List Row)) :
    (RangeCache.replaceIn i row es).any (fun e => e.1.covers j) =
      es.any (fun e => e.1.covers j) := by
  induction es with
  | nil => rfl
  | cons e es ih =>
    unfold RangeCache.replaceIn
    by_cases h : e.1.covers i = true
    · simp [h]
    · simp [h, ih]

theorem isRowLoaded_replace (c : RangeCache) (i : Int) (row : Row) (j : Int) :
    (c.replace i row).isRowLoaded j = c.isRowLoaded j :=
  any_covers_replaceIn i row j c.entries

theorem map_fst_replaceIn (i : Int) (row : Row) (es : List (CacheRange × List Row)) :
    (RangeCache.replaceIn i row es).map Prod.fst = es.map Prod.fst := by
  induction es with
  | nil => rfl
  | cons e es ih =>
    unfold RangeCache.replaceIn
    by_cases h : e.1.covers i = true
    · simp [h]
    · simp [h, ih]

theorem endIndex_eq_foldr_map (es : List (CacheRange × List Row)) :
    (RangeCache.mk es).endIndex = (es.map Prod.fst).foldr (fun r acc => max (r.2 + 1) acc) 0 := by
  unfold RangeCache.endIndex
  induction es with
  | nil => rfl
  | cons e es ih => simp only [List.foldr_cons, List.map_cons] at ih ⊢; rw [ih]

theorem endIndex_replace (c : RangeCache) (i : Int) (row : Row) :
    (c.replace i row).endIndex = c.endIndex := by
  obtain ⟨es⟩ := c
  unfold RangeCache.replace
  rw [endIndex_eq_foldr_map, endIndex_eq_foldr_map, map_fst_replaceIn]

theorem loadedCount_replace (c : RangeCache) (i : Int) (row : Row) :
    (c.replace i row).loadedCount = c.loadedCount := by
  unfold RangeCache.loadedCount
  rw [endIndex_replace]
  simp only [isRowLoaded_replace]

theorem noOverlap_replace (c : RangeCache) (i : Int) (row : Row) (h : c.NoOverlap) :
    (c.replace i row).NoOverlap := by
  obtain ⟨es⟩ := c
  unfold RangeCache.NoOverlap RangeCache.replace at *
  simp only at *
  have key : ∀ l : List (CacheRange × List Row),
      l.Pairwise (fun e f => e.1.disjoint f.1 = true) ↔
        (l.map Prod.fst).Pairwise (fun r q => r.disjoint q = true) := by
    intro l
    rw [List.pairwise_map]
  rw [key, map_fst_replaceIn, ← key]
  exact h

theorem get?_replace_same (c : RangeCache) (i : Int) (row old : Row)
    (h : c.get? i = some old) : (c.replace i row).get? i = some row := by
  obtain ⟨es⟩ := c
  unfold RangeCache.get? RangeCache.target RangeCache.replace at *
  simp only at *
  induction es with
  | nil => simp at h
  | cons e es ih =>
    unfold RangeCache.replaceIn
    by_cases hc : e.1.covers i = true
    · simp only [hc, List.find?_cons_of_pos, if_true] at h ⊢
      have hlt : e.1.offset i < e.2.length := by
        by_contra hge
        rw [List.getElem?_eq_none (by omega)] at h
        exact absurd h (by simp)
      simp [List.getElem?_set, hlt]
    · have hc2 : e.1.covers i = false := by simpa using hc
      simp only [hc2, Bool.false_eq_true, if_false, List.find?_cons_of_neg,
        not_false_eq_true] at h ⊢
      exact ih h

theorem get?_replace_other (c : RangeCache) (i : Int) (row : Row) (j : Int) (hne : j ≠ i) :
    (c.replace i row).get? j = c.get? j := by
  obtain ⟨es⟩ := c
  unfold RangeCache.get? RangeCache.target RangeCache.replace
  simp only
  induction es with
  | nil => rfl
  | cons e es ih =>
    unfold RangeCache.replaceIn
    by_cases hc : e.1.covers i = true
    · by_cases hj : e.1.covers j = true
      · simp only [hc, hj, List.find?_cons_of_pos, if_true]
        have hi1 : (e.1.1 : Int) ≤ i := by
          unfold CacheRange.covers at hc; simp at hc; exact hc.1
        have hj1 : (e.1.1 : Int) ≤ j := by
          unfold CacheRange.covers at hj; simp at hj; exact hj.1
        rw [List.getElem?_set_ne (by unfold CacheRange.offset; omega)]
      · have hj2 : e.1.covers j = false := by simpa using hj
        simp [hc, hj2]
    · have hc2 : e.1.covers i = false := by simpa using hc
      by_cases hj : e.1.covers j = true
      · simp [hc2, hj]
      · have hj2 : e.1.covers j = false := by simpa using hj
        simp only [hc2, hj2, Bool.false_eq_true, if_false, List.find?_cons_of_neg,
          not_false_eq_true]
        exact ih

theorem updateRow_accepted (m : SortedSetKeyModel) (rowIndex : Int) (row : QVariantMap)
    (hl : m.isRowLoaded rowIndex = true) (hv : isRowValid row = true) :
    (m.updateRow rowIndex row).m_rowsCache =
      m.m_rowsCache.replace rowIndex (row.at "value", row.at "score") ∧
    (m.updateRow rowIndex row).m_rowCount = m.m_rowCount ∧
    (m.updateRow rowIndex row).m_connection.sent = m.m_connection.sent ++
      [⟨["ZREM", m.m_keyFullPath, (m.m_rowsCache.get rowIndex).1], m.m_dbIndex⟩,
       ⟨["ZADD", m.m_keyFullPath, row.at "score", row.at "value"], m.m_dbIndex⟩] := by
  have hnew : ∀ a b : String, (if (a != b) = true then b else a) = b := by
    intro a b
    by_cases hab : a = b <;> simp [hab]
  have hd := deleteSortedSetRow_fields m (m.m_rowsCache.get rowIndex).1
  have ha := addSortedSetRow_fields (m.deleteSortedSetRow (m.m_rowsCache.get rowIndex).1)
    (row.at "value") (row.at "score")
  unfold updateRow
  simp only [hl, hv, hnew, Bool.not_true, Bool.or_self, Bool.false_eq_true, if_false]
  refine ⟨?_, ?_, ?_⟩
  · rw [ha.1, hd.1]
  · rw [ha.2.1, hd.2.1]
  · rw [ha.2.2.2.2, hd.2.2.2.2.2, hd.2.2.1, hd.2.2.2.1]
    simp

theorem countP_or_of_disjoint {α : Type} (p q : α → Bool) : ∀ l : List α,
    (∀ x ∈ l, ¬ (p x = true ∧ q x = true)) →
    l.countP (fun x => p x || q x) = l.countP p + l.countP q := by
  intro l
  induction l with
  | nil => intro _; rfl
  | cons x xs ih =>
    intro h
    have hx := h x (List.mem_cons_self x xs)
    have ih2 := ih (fun y hy => h y (List.mem_cons_of_mem x hy))
    simp only [List.countP_cons, ih2]
    cases hp : p x <;> cases hq : q x <;> simp_all <;> omega

theorem countP_covers_range (r : CacheRange) : ∀ N : Nat,
    (List.range N).countP (fun i : Nat => r.covers (i : Int)) = min N (r.2 + 1) - min N r.1 := by
  intro N
  induction N with
  | zero => simp
  | succ N ih =>
    rw [List.range_succ, List.countP_append, ih]
    by_cases hc : r.covers (N : Int) = true
    · have h1 : r.1 ≤ N ∧ N ≤ r.2 := by
        unfold CacheRange.covers at hc
        simp at hc
        omega
      simp only [List.countP_cons, List.countP_nil, hc, if_true]
      omega
    · have hc2 : r.covers (N : Int) = false := by simpa using hc
      have h1 : ¬ (r.1 ≤ N ∧ N ≤ r.2) := by
        intro h
        apply hc
        unfold CacheRange.covers
        simp
        omega
      simp only [List.countP_cons, List.countP_nil, hc2, Bool.false_eq_true, if_false]
      omega

theorem last_lt_endIndex (c : RangeCache) : ∀ e ∈ c.entries, e.1.2 < c.endIndex := by
  obtain ⟨es⟩ := c
  unfold RangeCache.endIndex
  simp only
  induction es with
  | nil => intro e he; simp at he
  | cons x xs ih =>
    intro e he
    simp only [List.foldr_cons]
    rcases List.mem_cons.mp he with h | h
    · subst h; omega
    · have := ih e h
      omega

theorem covers_of_disjoint (r q : CacheRange) (h : r.disjoint q = true) (i : Int) :
    ¬ (r.covers i = true ∧ q.covers i = true) := by
  unfold CacheRange.disjoint at h
  unfold CacheRange.covers
  simp at h ⊢
  omega

theorem sum_size_eq_countP (N : Nat) : ∀ es : List (CacheRange × List Row),
    (∀ e ∈ es, e.1.2 < N) →
    es.Pairwise (fun e f => e.1.disjoint f.1 = true) →
    (es.map (fun e => e.1.size)).sum =
      (List.range N).countP (fun i : Nat => es.any (fun e => e.1.covers (i : Int))) := by
  intro es
  induction es with
  | nil => intro _ _; simp
  | cons x xs ih =>
    intro hN hp
    have hx := hN x (List.mem_cons_self x xs)
    have ih2 := ih (fun e he => hN e (List.mem_cons_of_mem x he)) (List.pairwise_cons.mp hp).2
    have hdis : ∀ i ∈ List.range N,
        ¬ (x.1.covers (i : Int) = true ∧ xs.any (fun e => e.1.covers (i : Int)) = true) := by
      intro i _ hboth
      obtain ⟨f, hf, hfc⟩ := List.any_eq_true.mp hboth.2
      exact covers_of_disjoint x.1 f.1 ((List.pairwise_cons.mp hp).1 f hf) (i : Int)
        ⟨hboth.1, hfc⟩
    have hor := countP_or_of_disjoint (fun i : Nat => x.1.covers (i : Int))
      (fun i : Nat => xs.any (fun e => e.1.covers (i : Int))) (List.range N) hdis
    simp only [List.map_cons, List.sum_cons, List.any_cons]
    rw [hor, ← ih2, countP_covers_range x.1 N]
    unfold CacheRange.size
    omega

theorem sizeSum_eq_loadedCount (c : RangeCache) (h : c.NoOverlap) :
    c.sizeSum = c.loadedCount :=
  sum_size_eq_countP c.endIndex c.entries (last_lt_endIndex c) h

theorem isRowLoaded_lt_endIndex (c : RangeCache) (i : Int) (h : c.isRowLoaded i = true) :
    0 ≤ i ∧ i < (c.endIndex : Int) := by
  obtain ⟨e, he, hc⟩ := List.any_eq_true.mp h
  have := last_lt_endIndex c e he
  unfold CacheRange.covers at hc
  simp at hc
  omega

theorem get?_push_back (c : RangeCache) (row : Row) :
    (c.push_back row).isRowLoaded c.endIndex = true ∧
    (c.push_back row).get? c.endIndex = some row := by
  unfold RangeCache.push_back RangeCache.addLoadedRange RangeCache.isRowLoaded RangeCache.get?
    RangeCache.target
  simp [CacheRange.covers, CacheRange.offset]

theorem countP_isRowLoaded_of_le (c : RangeCache) : ∀ N : Nat, c.endIndex ≤ N →
    (List.range N).countP (fun i : Nat => c.isRowLoaded (i : Int)) = c.loadedCount := by
  intro N hN
  induction N, hN using Nat.le_induction with
  | base => rfl
  | succ N hN ih =>
    rw [List.range_succ, List.countP_append, ih]
    have hf : c.isRowLoaded (N : Int) = false := by
      by_contra hc
      have hc2 : c.isRowLoaded (N : Int) = true := by simpa using hc
      have := (isRowLoaded_lt_endIndex c N hc2).2
      omega
    simp [hf]

theorem countP_or_le {α : Type} (p q : α → Bool) : ∀ l : List α,
    l.countP (fun x => p x || q x) ≤ l.countP p + l.countP q := by
  intro l
  induction l with
  | nil => simp
  | cons x xs ih =>
    simp only [List.countP_cons]
    cases hp : p x <;> cases hq : q x <;> simp <;> omega

theorem loadedCount_addLoadedRange_le (c : RangeCache) (r : CacheRange) (rows : List Row) :
    (c.addLoadedRange r rows).loadedCount ≤ c.loadedCount + r.size := by
  have hN : c.endIndex ≤ max (r.2 + 1) c.endIndex := by omega
  have hB := countP_isRowLoaded_of_le c (max (r.2 + 1) c.endIndex) hN
  have hA := countP_covers_range r (max (r.2 + 1) c.endIndex)
  have hle := countP_or_le (fun i : Nat => r.covers (i : Int))
    (fun i : Nat => c.isRowLoaded (i : Int)) (List.range (max (r.2 + 1) c.endIndex))
  have hend : (c.addLoadedRange r rows).endIndex = max (r.2 + 1) c.endIndex := rfl
  have hcount : (c.addLoadedRange r rows).loadedCount =
      (List.range (max (r.2 + 1) c.endIndex)).countP
        (fun i : Nat => r.covers (i : Int) || c.isRowLoaded (i : Int)) := by
    unfold RangeCache.loadedCount
    rw [hend]
    rfl
  rw [hcount]
  unfold CacheRange.size
  omega

theorem loadedCount_push_back (c : RangeCache) (row : Row) :
    (c.push_back row).loadedCount = c.loadedCount + 1 := by
  have hend : (c.push_back row).endIndex = c.endIndex + 1 := by
    show max (c.endIndex + 1) c.endIndex = c.endIndex + 1
    omega
  unfold RangeCache.loadedCount
  rw [hend, List.range_succ, List.countP_append]
  have hlast : (c.push_back row).isRowLoaded (c.endIndex : Int) = true :=
    (get?_push_back c row).1
  have hbelow : (List.range c.endIndex).countP
        (fun i : Nat => (c.push_back row).isRowLoaded (i : Int)) =
      (List.range c.endIndex).countP (fun i : Nat => c.isRowLoaded (i : Int)) := by
    apply List.countP_congr
    intro i hi
    have hi2 : i < c.endIndex := List.mem_range.mp hi
    have hcov : CacheRange.covers (c.endIndex, c.endIndex) (i : Int) = false := by
      unfold CacheRange.covers
      simp
      omega
    show ((c.push_back row).isRowLoaded (i : Int) = true) ↔ (c.isRowLoaded (i : Int) = true)
    unfold RangeCache.push_back RangeCache.addLoadedRange RangeCache.isRowLoaded
    simp only [List.any_cons, hcov, Bool.false_or]
  rw [hbelow]
  simp [hlast]

theorem noOverlap_push_back (c : RangeCache) (row : Row) (h : c.NoOverlap) :
    (c.push_back row).NoOverlap := by
  unfold RangeCache.NoOverlap RangeCache.push_back RangeCache.addLoadedRange at *
  refine List.pairwise_cons.mpr ⟨?_, h⟩
  intro f hf
  have := last_lt_endIndex c f hf
  unfold CacheRange.disjoint
  simp
  omega

theorem disjoint_of_shrink_right (r q q2 : CacheRange) (h : r.disjoint q = true)
    (h1 : q2.1 = q.1) (h2 : q2.2 ≤ q.2) : r.disjoint q2 = true := by
  unfold CacheRange.disjoint at *
  simp at h ⊢
  omega

theorem disjoint_of_shrink_left (r r2 q : CacheRange) (h : r.disjoint q = true)
    (h1 : r2.1 = r.1) (h2 : r2.2 ≤ r.2) : r2.disjoint q = true := by
  unfold CacheRange.disjoint at *
  simp at h ⊢
  omega

theorem mem_removeIn (i : Int) : ∀ (es : List (CacheRange × List Row)) (f : CacheRange × List Row),
    f ∈ RangeCache.removeIn i es → ∃ g ∈ es, f.1.1 = g.1.1 ∧ f.1.2 ≤ g.1.2 := by
  intro es
  induction es with
  | nil => intro f hf; simp [RangeCache.removeIn] at hf
  | cons e es ih =>
    intro f hf
    unfold RangeCache.removeIn at hf
    by_cases hc : e.1.covers i = true
    · by_cases heq : e.1.1 = e.1.2
      · simp only [hc, heq, if_true] at hf
        exact ⟨f, List.mem_cons_of_mem e hf, rfl, le_refl _⟩
      · simp only [hc, heq, if_true, if_false] at hf
        rcases List.mem_cons.mp hf with h | h
        · refine ⟨e, List.mem_cons_self e es, ?_, ?_⟩
          · rw [h]
          · rw [h]; exact Nat.sub_le _ _
        · exact ⟨f, List.mem_cons_of_mem e h, rfl, le_refl _⟩
    · have hc2 : e.1.covers i = false := by simpa using hc
      simp only [hc2, Bool.false_eq_true, if_false] at hf
      rcases List.mem_cons.mp hf with h | h
      · exact ⟨e, List.mem_cons_self e es, by rw [h], by rw [h]⟩
      · obtain ⟨g, hg, h1, h2⟩ := ih f h
        exact ⟨g, List.mem_cons_of_mem e hg, h1, h2⟩

theorem noOverlap_removeAt (c : RangeCache) (i : Int) (h : c.NoOverlap) :
    (c.removeAt i).NoOverlap := by
  obtain ⟨es⟩ := c
  unfold RangeCache.NoOverlap RangeCache.removeAt at *
  simp only at *
  induction es with
  | nil => simp [RangeCache.removeIn]
  | cons e es ih =>
    have hp := List.pairwise_cons.mp h
    unfold RangeCache.removeIn
    by_cases hc : e.1.covers i = true
    · by_cases heq : e.1.1 = e.1.2
      · simp only [hc, heq, if_true]
        exact hp.2
      · simp only [hc, heq, if_true, if_false]
        refine List.pairwise_cons.mpr ⟨?_, hp.2⟩
        intro f hf
        exact disjoint_of_shrink_left e.1 _ f.1 (hp.1 f hf) rfl (Nat.sub_le _ _)
    · have hc2 : e.1.covers i = false := by simpa using hc
      simp only [hc2, Bool.false_eq_true, if_false]
      refine List.pairwise_cons.mpr ⟨?_, ih hp.2⟩
      intro f hf
      obtain ⟨g, hg, h1, h2⟩ := mem_removeIn i es f hf
      exact disjoint_of_shrink_right e.1 g.1 f.1 (hp.1 g hg) h1 h2

theorem sizeSum_removeAt (c : RangeCache) (i : Int) (h : c.isRowLoaded i = true) :
    (c.removeAt i).sizeSum + 1 = c.sizeSum := by
  obtain ⟨es⟩ := c
  unfold RangeCache.removeAt RangeCache.sizeSum
  unfold RangeCache.isRowLoaded at h
  simp only at *
  induction es with
  | nil => simp at h
  | cons e es ih =>
    unfold RangeCache.removeIn
    by_cases hc : e.1.covers i = true
    · have hle : e.1.1 ≤ e.1.2 := by
        unfold CacheRange.covers at hc
        simp at hc
        omega
      by_cases heq : e.1.1 = e.1.2
      · simp [hc, heq, CacheRange.size]
        omega
      · simp [hc, heq, CacheRange.size]
        omega
    · have hc2 : e.1.covers i = false := by simpa using hc
      simp only [List.any_cons, hc2, Bool.false_or] at h
      have := ih h
      simp only [hc2, Bool.false_eq_true, if_false, List.map_cons, List.sum_cons]
      omega

theorem loadedCount_removeAt (c : RangeCache) (i : Int) (hno : c.NoOverlap)
    (h : c.isRowLoaded i = true) : (c.removeAt i).loadedCount + 1 = c.loadedCount := by
  rw [← sizeSum_eq_loadedCount c hno,
    ← sizeSum_eq_loadedCount (c.removeAt i) (noOverlap_removeAt c i hno)]
  exact sizeSum_removeAt c i h

theorem decodeRows_even (n : Nat) : ∀ (rows : List String) (acc : List Row),
    rows.length = 2 * n → decodeRows rows acc = some (acc ++ pairUp rows) := by
  induction n with
  | zero =>
    intro rows acc h
    have : rows = [] := List.length_eq_zero.mp (by omega)
    subst this
    simp [decodeRows, pairUp]
  | succ n ih =>
    intro rows acc h
    match rows, h with
    | first :: second :: rest, h =>
      have hrest : rest.length = 2 * n := by simp at h; omega
      simp [decodeRows, pairUp, ih rest _ hrest]

theorem decodeRows_odd (n : Nat) : ∀ (rows : List String) (acc : List Row),
    rows.length = 2 * n + 1 → decodeRows rows acc = none := by
  induction n with
  | zero =>
    intro rows acc h
    match rows, h with
    | [x], _ => simp [decodeRows]
  | succ n ih =>
    intro rows acc h
    match rows, h with
    | first :: second :: rest, h =>
      have hrest : rest.length = 2 * n + 1 := by simp at h; omega
      simp [decodeRows, ih rest _ hrest]

theorem pairUp_length (n : Nat) : ∀ rows : List String,
    rows.length = 2 * n → (pairUp rows).length = n := by
  induction n with
  | zero =>
    intro rows h
    have : rows = [] := List.length_eq_zero.mp (by omega)
    subst this
    simp [pairUp]
  | succ n ih =>
    intro rows h
    match rows, h with
    | first :: second :: rest, h =>
      have hrest : rest.length = 2 * n := by simp at h; omega
      simp [pairUp, ih rest hrest]

theorem pairUp_getElem? (n : Nat) : ∀ (rows : List String) (k : Nat),
    rows.length = 2 * n → k < n →
    ∃ first second, rows[2 * k]? = some first ∧ rows[2 * k + 1]? = some second ∧
      (pairUp rows)[k]? = some (first, second) := by
  induction n with
  | zero => intro rows k _ hk; omega
  | succ n ih =>
    intro rows k h hk
    match rows, h with
    | first :: second :: rest, h =>
      have hrest : rest.length = 2 * n := by simp at h; omega
      cases k with
      | zero => exact ⟨first, second, by simp [pairUp]⟩
      | succ k =>
        obtain ⟨x, y, hx, hy, hxy⟩ := ih rest k hrest (by omega)
        refine ⟨x, y, ?_, ?_, ?_⟩
        · have : 2 * (k + 1) = (2 * k) + 1 + 1 := by omega
          rw [this]; simpa using hx
        · have : 2 * (k + 1) + 1 = (2 * k + 1) + 1 + 1 := by omega
          rw [this]; simpa using hy
        · simpa [pairUp] using hxy

theorem addRow_invariant (m : SortedSetKeyModel) (row : QVariantMap)
    (h : RowCountInvariant m) : RowCountInvariant (m.addRow row) := by
  unfold RowCountInvariant loadedCount at *
  unfold addRow addSortedSetRow Connection.commandSync
  by_cases hv : isRowValid row = true
  · simp only [hv, Bool.not_true, Bool.false_eq_true, if_false]
    cases hr : m.m_connection.respond m.m_connection.sent
        ⟨["ZADD", m.m_keyFullPath, row.at "score", row.at "value"], m.m_dbIndex⟩ with
    | raises what => simpa [emitError] using h
    | value n =>
      by_cases h1 : n = 1
      · simp only [h1, decide_True, loadedCount_push_back]
        push_cast
        omega
      · simpa [h1] using h
  · have hv2 : isRowValid row = false := by simpa using hv
    simpa [hv2, emitError] using h

theorem updateRow_invariant (m : SortedSetKeyModel) (rowIndex : Int) (row : QVariantMap)
    (h : RowCountInvariant m) : RowCountInvariant (m.updateRow rowIndex row) := by
  by_cases hl : m.isRowLoaded rowIndex = true
  · by_cases hv : isRowValid row = true
    · have hacc := updateRow_accepted m rowIndex row hl hv
      unfold RowCountInvariant loadedCount at *
      rw [hacc.1, hacc.2.1, loadedCount_replace]
      exact h
    · have hv2 : isRowValid row = false := by simpa using hv
      have : m.updateRow rowIndex row = m.emitError "Invalid row" := by
        unfold updateRow; simp [hv2]
      rw [this]; exact h
  · have hl2 : m.isRowLoaded rowIndex = false := by simpa using hl
    have : m.updateRow rowIndex row = m.emitError "Invalid row" := by
      unfold updateRow; simp [hl2]
    rw [this]; exact h

theorem removeRow_invariant (m : SortedSetKeyModel) (i : Int)
    (hno : m.m_rowsCache.NoOverlap)
    (h : RowCountInvariant m) : RowCountInvariant (m.removeRow i) := by
  by_cases hl : m.isRowLoaded i = true
  · have hcount := loadedCount_removeAt m.m_rowsCache i hno hl
    unfold RowCountInvariant loadedCount at *
    unfold removeRow Connection.commandSync setRemovedIfEmpty
    simp only [hl, Bool.not_true, Bool.false_eq_true, if_false]
    cases hr : m.m_connection.respond m.m_connection.sent
        ⟨["ZREM", m.m_keyFullPath, (m.m_rowsCache.get i).1], m.m_dbIndex⟩ with
    | raises what => simpa [emitError] using h
    | value n =>
      by_cases h0 : m.m_rowCount - 1 = 0
      · simp only [h0, if_true]
        omega
      · simp only [h0, if_false]
        omega
  · have hl2 : m.isRowLoaded i = false := by simpa using hl
    have : m.removeRow i = m := by unfold removeRow; simp [hl2]
    rw [this]; exact h

theorem addLoadedRowsToCache_odd_invariant (m : SortedSetKeyModel) (rows : List String)
    (k s : Nat) (hodd : rows.length = 2 * k + 1) (h : RowCountInvariant m) :
    RowCountInvariant (m.addLoadedRowsToCache rows s) := by
  have : m.addLoadedRowsToCache rows s
      = m.emitError "Data was loaded from server partially." := by
    unfold addLoadedRowsToCache
    rw [decodeRows_odd k rows [] hodd]
  rw [this]; exact h

theorem addLoadedRowsToCache_even_invariant (m : SortedSetKeyModel) (rows : List String)
    (n s : Nat) (hn : 1 ≤ n) (heven : rows.length = 2 * n) (hs : s + n ≤ U64)
    (hroom : (m.loadedCount : Int) + n ≤ m.m_rowCount) :
    RowCountInvariant (m.addLoadedRowsToCache rows s) := by
  have hs1 : s % U64 = s := Nat.mod_eq_of_lt (by omega)
  have hr : u64sub (u64add s (pairUp rows).length) 1 = s + n - 1 := by
    rw [pairUp_length n rows heven]
    unfold u64sub u64add U64 at *
    omega
  have hle := loadedCount_addLoadedRange_le m.m_rowsCache (s, s + n - 1) (pairUp rows)
  have hsize : CacheRange.size (s, s + n - 1) = n := by
    unfold CacheRange.size
    simp only
    omega
  rw [hsize] at hle
  unfold RowCountInvariant loadedCount at *
  unfold addLoadedRowsToCache
  rw [decodeRows_even n rows [] heven]
  simp only [List.nil_append, hs1, hr]
  omega

theorem noOverlap_preserved (m : SortedSetKeyModel) (rowIndex : Int) (row : QVariantMap)
    (h : m.m_rowsCache.NoOverlap) :
    (m.addRow row).m_rowsCache.NoOverlap ∧
    (m.updateRow rowIndex row).m_rowsCache.NoOverlap ∧
    (m.removeRow rowIndex).m_rowsCache.NoOverlap := by
  refine ⟨?_, ?_, ?_⟩
  · unfold addRow addSortedSetRow Connection.commandSync
    by_cases hv : isRowValid row = true
    · simp only [hv, Bool.not_true, Bool.false_eq_true, if_false]
      cases hr : m.m_connection.respond m.m_connection.sent
          ⟨["ZADD", m.m_keyFullPath, row.at "score", row.at "value"], m.m_dbIndex⟩ with
      | raises what => simpa [emitError] using h
      | value n =>
        by_cases h1 : n = 1
        · simp only [h1, decide_True]
          exact noOverlap_push_back _ _ h
        · simpa [h1] using h
    · have hv2 : isRowValid row = false := by simpa using hv
      simpa [hv2, emitError] using h
  · by_cases hl : m.isRowLoaded rowIndex = true
    · by_cases hv : isRowValid row = true
      · rw [(updateRow_accepted m rowIndex row hl hv).1]
        exact noOverlap_replace _ _ _ h
      · have hv2 : isRowValid row = false := by simpa using hv
        have : m.updateRow rowIndex row = m.emitError "Invalid row" := by
          unfold updateRow; simp [hv2]
        rw [this]; exact h
    · have hl2 : m.isRowLoaded rowIndex = false := by simpa using hl
      have : m.updateRow rowIndex row = m.emitError "Invalid row" := by
        unfold updateRow; simp [hl2]
      rw [this]; exact h
  · by_cases hl : m.isRowLoaded rowIndex = true
    · unfold removeRow Connection.commandSync setRemovedIfEmpty
      simp only [hl, Bool.not_true, Bool.false_eq_true, if_false]
      cases hr : m.m_connection.respond m.m_connection.sent
          ⟨["ZREM", m.m_keyFullPath, (m.m_rowsCache.get rowIndex).1], m.m_dbIndex⟩ with
      | raises what => simpa [emitError] using h
      | value n =>
        by_cases h0 : m.m_rowCount - 1 = 0
        · simp only [h0, if_true]
          exact noOverlap_removeAt _ _ h
        · simp only [h0, if_false]
          exact noOverlap_removeAt _ _ h
    · have hl2 : m.isRowLoaded rowIndex = false := by simpa using hl
      have : m.removeRow rowIndex = m := by unfold removeRow; simp [hl2]
      rw [this]; exact h

theorem addRow_connection_failure (m : SortedSetKeyModel) (row : QVariantMap) (what : String)
    (hr : m.m_connection.respond m.m_connection.sent
      ⟨["ZADD", m.m_keyFullPath, row.at "score", row.at "value"], m.m_dbIndex⟩
        = Reply.raises what) :
    (m.addRow row).m_rowsCache = m.m_rowsCache ∧ (m.addRow row).m_rowCount = m.m_rowCount := by
  unfold addRow addSortedSetRow Connection.commandSync
  by_cases hv : isRowValid row = true
  · simp [hv, hr, emitError]
  · have hv2 : isRowValid row = false := by simpa using hv
    simp [hv2, emitError]

theorem removeRow_connection_failure (m : SortedSetKeyModel) (i : Int) (what : String)
    (hr : m.m_connection.respond m.m_connection.sent
      ⟨["ZREM", m.m_keyFullPath, (m.m_rowsCache.get i).1], m.m_dbIndex⟩ = Reply.raises what) :
    (m.removeRow i).m_rowsCache = m.m_rowsCache ∧ (m.removeRow i).m_rowCount = m.m_rowCount := by
  unfold removeRow Connection.commandSync
  by_cases hl : m.isRowLoaded i = true
  · simp [hl, hr, emitError]
  · have hl2 : m.isRowLoaded i = false := by simpa using hl
    simp [hl2]

theorem getData_score_loaded (parse : String → Option ℚ) (m : SortedSetKeyModel) (i : Int)
    (member score : String) (hl : m.isRowLoaded i = true)
    (hget : m.m_rowsCache.get? i = some (member, score)) :
    getData parse m i Roles.Score = QVariant.double (toDouble parse score) := by
  have hg : m.m_rowsCache.get i = (member, score) := by simp [RangeCache.get, hget]
  simp [getData, hl, hg, Roles.Score, Roles.Value]

/-! ## Not-loaded rows and rejected calls -/

/-- C7: for every state, every row index that is not loaded and every role
(any integer), `getData` returns the empty value `QVariant()`, not a row
number, a member or a number; `getData` is a function of the state and gives
no new state. -/
theorem getData_not_loaded (parse : String → Option ℚ) (m : SortedSetKeyModel)
    (rowIndex dataRole : Int) (h : m.isRowLoaded rowIndex = false) :
    getData parse m rowIndex dataRole = QVariant.invalid := by
  simp [getData, h]

theorem getData_not_loaded_witness :
    (sample 2 cacheAB okConnection).isRowLoaded 2 = false ∧
    getData parseDecimal (sample 2 cacheAB okConnection) 2 Roles.Score = QVariant.invalid :=
  ⟨by decide, getData_not_loaded parseDecimal (sample 2 cacheAB okConnection) 2 Roles.Score
    (by decide)⟩

/-- C5: `updateRow` with an index that is not loaded or with a row that fails
`isRowValid`, and `addRow` with a row that fails `isRowValid`, send no command
to the connection, emit the error "Invalid row" and leave the cache and the
row count as they were. -/
theorem rejected_calls_issue_no_commands (m : SortedSetKeyModel) (rowIndex : Int)
    (row newRow : QVariantMap)
    (hu : m.isRowLoaded rowIndex = false ∨ isRowValid row = false)
    (ha : isRowValid newRow = false) :
    ((m.updateRow rowIndex row).m_connection.sent = m.m_connection.sent ∧
      (m.updateRow rowIndex row).m_notifier = m.m_notifier ++ [Signal.error "Invalid row"] ∧
      (m.updateRow rowIndex row).m_rowsCache = m.m_rowsCache ∧
      (m.updateRow rowIndex row).m_rowCount = m.m_rowCount) ∧
    ((m.addRow newRow).m_connection.sent = m.m_connection.sent ∧
      (m.addRow newRow).m_notifier = m.m_notifier ++ [Signal.error "Invalid row"] ∧
      (m.addRow newRow).m_rowsCache = m.m_rowsCache ∧
      (m.addRow newRow).m_rowCount = m.m_rowCount) := by
  have h1 : m.updateRow rowIndex row = m.emitError "Invalid row" := by
    unfold updateRow
    rcases hu with h | h <;> simp [h]
  have h2 : m.addRow newRow = m.emitError "Invalid row" := by
    unfold addRow
    simp [ha]
  rw [h1, h2]
  exact ⟨⟨rfl, rfl, rfl, rfl⟩, ⟨rfl, rfl, rfl, rfl⟩⟩

theorem rejected_calls_issue_no_commands_witness :
    ((sample 2 cacheAB okConnection).updateRow 7 [("value", "a2"), ("score", "1.5")]).m_connection.sent
      = [] ∧
    ((sample 2 cacheAB okConnection).addRow [("value", "c"), ("score", "")]).m_notifier
      = [Signal.error "Invalid row"] :=
  have h := rejected_calls_issue_no_commands (sample 2 cacheAB okConnection) 7
    [("value", "a2"), ("score", "1.5")] [("value", "c"), ("score", "")]
    (Or.inl (by decide)) (by decide)
  ⟨h.1.1, h.2.2.1⟩

/-! ## addRow -/

/-- C2: for a valid row, `addRow` sends exactly one command,
`ZADD key score member`, whatever the connection does with it; when the
integer of the reply is 1 the row count grows by exactly 1 and the row
`(member, score)` is given to `push_back` of the cache, which makes it loaded
at the end of the cache; when it is any other integer the row count and the
cache are unchanged. -/
theorem addRow_reply (m : SortedSetKeyModel) (row : QVariantMap)
    (hv : isRowValid row = true) :
    (m.addRow row).m_connection.sent = m.m_connection.sent ++
      [⟨["ZADD", m.m_keyFullPath, row.at "score", row.at "value"], m.m_dbIndex⟩] ∧
    (m.m_connection.respond m.m_connection.sent
        ⟨["ZADD", m.m_keyFullPath, row.at "score", row.at "value"], m.m_dbIndex⟩ = Reply.value 1 →
      (m.addRow row).m_rowCount = m.m_rowCount + 1 ∧
      (m.addRow row).m_rowsCache = m.m_rowsCache.push_back (row.at "value", row.at "score") ∧
      (m.addRow row).isRowLoaded m.m_rowsCache.endIndex = true ∧
      (m.addRow row).m_rowsCache.get? m.m_rowsCache.endIndex
        = some (row.at "value", row.at "score")) ∧
    (∀ n : Int, n ≠ 1 →
      m.m_connection.respond m.m_connection.sent
        ⟨["ZADD", m.m_keyFullPath, row.at "score", row.at "value"], m.m_dbIndex⟩ = Reply.value n →
      (m.addRow row).m_rowCount = m.m_rowCount ∧
      (m.addRow row).m_rowsCache = m.m_rowsCache) := by
  have hpush := get?_push_back m.m_rowsCache (row.at "value", row.at "score")
  refine ⟨?_, ?_, ?_⟩
  · unfold addRow addSortedSetRow Connection.commandSync
    simp only [hv]
    cases hr : m.m_connection.respond m.m_connection.sent
        ⟨["ZADD", m.m_keyFullPath, row.at "score", row.at "value"], m.m_dbIndex⟩ with
    | raises what => simp [emitError]
    | value n => by_cases h1 : n = 1 <;> simp [h1]
  · intro hr
    unfold isRowLoaded addRow addSortedSetRow Connection.commandSync
    simp only [hv, hr]
    simp [hpush]
  · intro n h1 hr
    unfold addRow addSortedSetRow Connection.commandSync
    simp only [hv, hr]
    simp [h1]

theorem addRow_reply_witness :
    ((sample 2 cacheAB okConnection).addRow [("value", "c"), ("score", "3")]).m_connection.sent
      = [⟨["ZADD", "k", "3", "c"], 0⟩] ∧
    ((sample 2 cacheAB okConnection).addRow [("value", "c"), ("score", "3")]).m_rowCount = 3 ∧
    ((sample 2 cacheAB okConnection).addRow [("value", "c"), ("score", "3")]).m_rowsCache
      = cacheAB.push_back ("c", "3") :=
  have h := addRow_reply (sample 2 cacheAB okConnection) [("value", "c"), ("score", "3")]
    (by decide)
  ⟨h.1, (h.2.1 rfl).1, (h.2.1 rfl).2.1⟩

/-! ## removeRow -/

/-- C4: for a loaded index `i` whose cached row is `(m0, s0)` and a valid row
with member `row["value"]` and score `row["score"]`, whichever of the two
differs from the cached row, `updateRow` sends exactly `ZREM key m0` and then
`ZADD key score member`; when both are answered, the cached row `i` is
`(member, score)` afterwards, `getData` gives the member for `Value` and the
number read from the score text for `Score`, every other cached row, the set
of loaded indices and the row count are as before, and no error is signalled. -/
theorem updateRow_success (parse : String → Option ℚ) (m : SortedSetKeyModel) (i : Int)
    (m0 s0 : String) (row : QVariantMap)
    (hl : m.isRowLoaded i = true)
    (hget : m.m_rowsCache.get? i = some (m0, s0))
    (hv : isRowValid row = true) :
    (m.updateRow i row).m_connection.sent = m.m_connection.sent ++
      [⟨["ZREM", m.m_keyFullPath, m0], m.m_dbIndex⟩,
       ⟨["ZADD", m.m_keyFullPath, row.at "score", row.at "value"], m.m_dbIndex⟩] ∧
    (∀ a b : Int,
      m.m_connection.respond m.m_connection.sent
        ⟨["ZREM", m.m_keyFullPath, m0], m.m_dbIndex⟩ = Reply.value a →
      m.m_connection.respond
        (m.m_connection.sent ++ [⟨["ZREM", m.m_keyFullPath, m0], m.m_dbIndex⟩])
        ⟨["ZADD", m.m_keyFullPath, row.at "score", row.at "value"], m.m_dbIndex⟩
          = Reply.value b →
      (m.updateRow i row).m_rowsCache.get? i = some (row.at "value", row.at "score") ∧
      getData parse (m.updateRow i row) i Roles.Value = QVariant.bytes (row.at "value") ∧
      getData parse (m.updateRow i row) i Roles.Score
        = QVariant.double (toDouble parse (row.at "score")) ∧
      (∀ j : Int, j ≠ i → (m.updateRow i row).m_rowsCache.get? j = m.m_rowsCache.get? j) ∧
      (∀ j : Int, (m.updateRow i row).isRowLoaded j = m.isRowLoaded j) ∧
      (m.updateRow i row).m_rowCount = m.m_rowCount ∧
      (m.updateRow i row).m_notifier = m.m_notifier) := by
  have hg : m.m_rowsCache.get i = (m0, s0) := by simp [RangeCache.get, hget]
  have hacc := updateRow_accepted m i row hl hv
  rw [hg] at hacc
  have hsame := get?_replace_same m.m_rowsCache i (row.at "value", row.at "score") (m0, s0) hget
  have hloaded : ∀ j : Int, (m.updateRow i row).isRowLoaded j = m.isRowLoaded j := by
    intro j
    unfold isRowLoaded
    rw [hacc.1]
    exact isRowLoaded_replace _ _ _ _
  have hrow : (m.updateRow i row).m_rowsCache.get i = (row.at "value", row.at "score") := by
    simp [RangeCache.get, hacc.1, hsame]
  refine ⟨hacc.2.2, ?_⟩
  intro a b hzrem hzadd
  refine ⟨?_, ?_, ?_, ?_, hloaded, hacc.2.1, ?_⟩
  · rw [hacc.1]; exact hsame
  · simp [getData, hloaded, hl, hrow]
  · simp [getData, hloaded, hl, hrow, Roles.Score, Roles.Value]
  · intro j hj
    rw [hacc.1]
    exact get?_replace_other _ _ _ _ hj
  · have hnew : ∀ x y : String, (if (x != y) = true then y else x) = y := by
      intro x y
      by_cases hxy : x = y <;> simp [hxy]
    unfold updateRow deleteSortedSetRow addSortedSetRow Connection.commandSync
    simp only [hl, hv, hg, hnew, hzrem, Bool.not_true, Bool.or_self, Bool.false_eq_true,
      if_false]
    simp [hzadd]

theorem updateRow_success_witness :
    ((sample 2 cacheAB okConnection).updateRow 0 [("value", "a2"), ("score", "1.5")]).m_connection.sent
      = [⟨["ZREM", "k", "a"], 0⟩, ⟨["ZADD", "k", "1.5", "a2"], 0⟩] ∧
    ((sample 2 cacheAB okConnection).updateRow 0 [("value", "a2"), ("score", "1.5")]).m_rowsCache.get? 0
      = some ("a2", "1.5") ∧
    getData parseDecimal
      ((sample 2 cacheAB okConnection).updateRow 0 [("value", "a2"), ("score", "1.5")]) 0 Roles.Value
      = QVariant.bytes "a2" ∧
    getData parseDecimal
      ((sample 2 cacheAB okConnection).updateRow 0 [("value", "a2"), ("score", "1.5")]) 0 Roles.Score
      = QVariant.double (3 / 2) ∧
    ((sample 2 cacheAB okConnection).updateRow 0 [("value", "a2"), ("score", "1.5")]).m_rowsCache.get? 1
      = some ("b", "2.0") :=
  have h := updateRow_success parseDecimal (sample 2 cacheAB okConnection) 0 "a" "1.0"
    [("value", "a2"), ("score", "1.5")] (by decide) (by decide) (by decide)
  have h2 := h.2 1 1 rfl rfl
  ⟨h.1, h2.1, h2.2.1,
    h2.2.2.1.trans (by
      simp [toDouble, parseDecimal, digitsValue, QVariantMap.at, List.lookup]
      norm_num),
    (h2.2.2.2.1 1 (by decide)).trans (by decide)⟩

/-! ## addLoadedRowsToCache -/

/-- C6: for a flat list of odd length `2n+1`, `addLoadedRowsToCache` signals
"Data was loaded from server partially.", merges nothing and leaves the cache
and the row count as they were; for a flat list of even length `2k` it builds
exactly `k` rows, row `j` being `(flat[2j], flat[2j+1])`, in input order, and
gives exactly those rows to `addLoadedRange` of the cache, for the range that
starts at the start index. -/
theorem addLoadedRowsToCache_decoding (m : SortedSetKeyModel) (rowsOdd rowsEven : List String)
    (n k rowStartId : Nat)
    (hodd : rowsOdd.length = 2 * n + 1) (heven : rowsEven.length = 2 * k) :
    (m.addLoadedRowsToCache rowsOdd rowStartId
        = m.emitError "Data was loaded from server partially." ∧
      (m.addLoadedRowsToCache rowsOdd rowStartId).m_rowsCache = m.m_rowsCache ∧
      (m.addLoadedRowsToCache rowsOdd rowStartId).m_rowCount = m.m_rowCount) ∧
    (∃ result : List Row, result.length = k ∧
      (∀ j, j < k → ∃ first second, rowsEven[2 * j]? = some first ∧
        rowsEven[2 * j + 1]? = some second ∧ result[j]? = some (first, second)) ∧
      m.addLoadedRowsToCache rowsEven rowStartId =
        { m with
          m_rowsCache := m.m_rowsCache.addLoadedRange
            (rowStartId % U64, u64sub (u64add (rowStartId % U64) k) 1) result }) := by
  constructor
  · have h : m.addLoadedRowsToCache rowsOdd rowStartId
        = m.emitError "Data was loaded from server partially." := by
      unfold addLoadedRowsToCache
      rw [decodeRows_odd n rowsOdd [] hodd]
    rw [h]
    exact ⟨rfl, rfl, rfl⟩
  · refine ⟨pairUp rowsEven, pairUp_length k rowsEven heven,
      fun j hj => pairUp_getElem? k rowsEven j heven hj, ?_⟩
    unfold addLoadedRowsToCache
    rw [decodeRows_even k rowsEven [] heven]
    simp [pairUp_length k rowsEven heven]

theorem addLoadedRowsToCache_decoding_witness :
    ((sample 2 ⟨[]⟩ okConnection).addLoadedRowsToCache ["a", "1.0", "b"] 0).m_notifier
      = [Signal.error "Data was loaded from server partially."] ∧
    ((sample 2 ⟨[]⟩ okConnection).addLoadedRowsToCache ["a", "1.0", "b"] 0).m_rowsCache = ⟨[]⟩ ∧
    ∃ result : List Row, result.length = 2 ∧
      (sample 2 ⟨[]⟩ okConnection).addLoadedRowsToCache ["a", "1.0", "b", "2.0"] 0 =
        { (sample 2 ⟨[]⟩ okConnection) with
          m_rowsCache :=
            (⟨[]⟩ : RangeCache).addLoadedRange (0 % U64, u64sub (u64add (0 % U64) 2) 1) result } :=
  have h := addLoadedRowsToCache_decoding (sample 2 ⟨[]⟩ okConnection) ["a", "1.0", "b"]
    ["a", "1.0", "b", "2.0"] 1 2 0 rfl rfl
  ⟨by rw [h.1.1]; rfl, h.1.2.1, h.2.imp (fun _ hr => ⟨hr.1, hr.2.2⟩)⟩

/-- C10: the range given to the cache by `addLoadedRowsToCache`, computed in
unsigned 64-bit arithmetic. For a start index `s` and a list of even length
that decodes to `n ≥ 1` rows with `s + n ≤ 2^64`, the range is
`{s, s + n - 1}`, with first ≤ last and last - first + 1 = n. For the empty
list no error is signalled and the range is `{s, (s - 1) mod 2^64}`, which for
`s = 0` is `{0, 2^64 - 1}`, given together with zero rows. -/
theorem addLoadedRowsToCache_range (m : SortedSetKeyModel) (rows : List String) (n s : Nat)
    (hn : 1 ≤ n) (hlen : rows.length = 2 * n) (hs : s + n ≤ U64) :
    (∃ result : List Row, result.length = n ∧
      m.addLoadedRowsToCache rows s =
        { m with m_rowsCache := m.m_rowsCache.addLoadedRange (s, s + n - 1) result } ∧
      s ≤ s + n - 1 ∧ (s + n - 1) - s + 1 = n) ∧
    (m.addLoadedRowsToCache [] s =
        { m with m_rowsCache := m.m_rowsCache.addLoadedRange (s, (s + (U64 - 1)) % U64) [] } ∧
      (m.addLoadedRowsToCache [] s).m_notifier = m.m_notifier) ∧
    m.addLoadedRowsToCache [] 0 =
      { m with m_rowsCache := m.m_rowsCache.addLoadedRange (0, 18446744073709551615) [] } := by
  have hs1 : s % U64 = s := Nat.mod_eq_of_lt (by omega)
  refine ⟨⟨pairUp rows, pairUp_length n rows hlen, ?_, by omega, by omega⟩, ⟨?_, ?_⟩, ?_⟩
  · unfold addLoadedRowsToCache
    rw [decodeRows_even n rows [] hlen]
    have hr : u64sub (u64add s (pairUp rows).length) 1 = s + n - 1 := by
      rw [pairUp_length n rows hlen]
      unfold u64sub u64add U64 at *
      omega
    simp only [List.nil_append, hs1, hr]
  · unfold addLoadedRowsToCache
    have hr : u64sub (u64add s 0) 1 = (s + (U64 - 1)) % U64 := by
      unfold u64sub u64add U64 at *
      omega
    simp [decodeRows, hs1, hr]
  · unfold addLoadedRowsToCache
    simp [decodeRows]
  · unfold addLoadedRowsToCache
    have hr : u64sub (u64add (0 % U64) 0) 1 = 18446744073709551615 := by decide
    simp only [decodeRows, List.nil_append, List.length_nil, hr]
    rfl

theorem addLoadedRowsToCache_range_witness :
    (∃ result : List Row, result.length = 2 ∧
      (sample 9 ⟨[]⟩ okConnection).addLoadedRowsToCache ["a", "1.0", "b", "2.0"] 5 =
        { (sample 9 ⟨[]⟩ okConnection) with
          m_rowsCache := (⟨[]⟩ : RangeCache).addLoadedRange (5, 6) result }) ∧
    (sample 9 ⟨[]⟩ okConnection).addLoadedRowsToCache [] 5 =
      { (sample 9 ⟨[]⟩ okConnection) with
        m_rowsCache := (⟨[]⟩ : RangeCache).addLoadedRange (5, 4) [] } :=
  have h := addLoadedRowsToCache_range (sample 9 ⟨[]⟩ okConnection) ["a", "1.0", "b", "2.0"] 2 5
    (by decide) rfl (by decide)
  ⟨h.1.imp (fun _ hr => ⟨hr.1, hr.2.1⟩), h.2.1.1⟩

/-! ## The row-count invariant -/

/-- C8, as the claim states it, fails. From the state with row count 0 and an
empty cache, which satisfies the invariant, `addLoadedRowsToCache` of the
response `["a", "1.0"]` at start index 0 gives a state with one loaded row and
row count 0, which does not. And from the state reached by fetching the same
page of two rows twice (row count 2, rows 0 and 1 loaded), which satisfies the
invariant, `removeRow 0` gives row count 1 with rows 0 and 1 still loaded. -/
theorem rowCountInvariant_counterexample :
    (RowCountInvariant (sample 0 ⟨[]⟩ okConnection) ∧
      ((sample 0 ⟨[]⟩ okConnection).addLoadedRowsToCache ["a", "1.0"] 0).loadedCount = 1 ∧
      ((sample 0 ⟨[]⟩ okConnection).addLoadedRowsToCache ["a", "1.0"] 0).m_rowCount = 0 ∧
      ¬ RowCountInvariant ((sample 0 ⟨[]⟩ okConnection).addLoadedRowsToCache ["a", "1.0"] 0)) ∧
    (RowCountInvariant refetched ∧
      (refetched.removeRow 0).loadedCount = 2 ∧
      (refetched.removeRow 0).m_rowCount = 1 ∧
      ¬ RowCountInvariant (refetched.removeRow 0)) := by
  decide

/-- C8, amended: the invariant "row count ≥ number of rows loaded in the
cache" is preserved by `addRow` and `updateRow` from every state, with any
reply and any input; by `removeRow` from every state whose cached ranges do not
overlap; and by `addLoadedRowsToCache` when the response has odd length
(nothing is merged) or when it merges `n ≥ 1` rows at a start index `s` with
`s + n ≤ 2^64` and the row count is at least the number of loaded rows
plus `n`. -/
theorem rowCountInvariant_preserved (m : SortedSetKeyModel) (h : RowCountInvariant m) :
    (∀ row : QVariantMap, RowCountInvariant (m.addRow row)) ∧
    (∀ (rowIndex : Int) (row : QVariantMap), RowCountInvariant (m.updateRow rowIndex row)) ∧
    (m.m_rowsCache.NoOverlap → ∀ rowIndex : Int, RowCountInvariant (m.removeRow rowIndex)) ∧
    (∀ (rows : List String) (k s : Nat), rows.length = 2 * k + 1 →
      RowCountInvariant (m.addLoadedRowsToCache rows s)) ∧
    (∀ (rows : List String) (n s : Nat), 1 ≤ n → rows.length = 2 * n → s + n ≤ U64 →
      (m.loadedCount : Int) + n ≤ m.m_rowCount →
      RowCountInvariant (m.addLoadedRowsToCache rows s)) :=
  ⟨fun row => addRow_invariant m row h,
    fun rowIndex row => updateRow_invariant m rowIndex row h,
    fun hno rowIndex => removeRow_invariant m rowIndex hno h,
    fun rows k s hodd => addLoadedRowsToCache_odd_invariant m rows k s hodd h,
    fun rows n s hn heven hs hroom =>
      addLoadedRowsToCache_even_invariant m rows n s hn heven hs hroom⟩

theorem rowCountInvariant_preserved_witness :
    RowCountInvariant
      ((sample 3 cacheAB okConnection).addRow [("value", "a2"), ("score", "1.5")]) ∧
    RowCountInvariant
      ((sample 3 cacheAB okConnection).updateRow 0 [("value", "a2"), ("score", "1.5")]) ∧
    RowCountInvariant ((sample 3 cacheAB okConnection).removeRow 0) ∧
    RowCountInvariant ((sample 3 cacheAB okConnection).addLoadedRowsToCache ["c"] 2) ∧
    RowCountInvariant ((sample 3 cacheAB okConnection).addLoadedRowsToCache ["c", "3"] 2) :=
  have h := rowCountInvariant_preserved (sample 3 cacheAB okConnection) (by decide)
  ⟨h.1 _, h.2.1 0 _, h.2.2.1 (by decide) 0, h.2.2.2.1 ["c"] 0 2 rfl,
    h.2.2.2.2 ["c", "3"] 1 2 (by decide) rfl (by decide) (by decide)⟩

/-! ## Scores that are not numbers -/

/-- C9, as the claim states it, fails: for the loaded row `("a", "abc")`, whose
score text is not a number, `getData` with role `Score` returns the number 0,
the same value it returns for the loaded row `("a", "0")`. -/
theorem getData_unparsable_score_counterexample :
    (sample 1 ⟨[((0, 0), [("a", "abc")])]⟩ okConnection).isRowLoaded 0 = true ∧
    parseDecimal "abc" = none ∧
    getData parseDecimal (sample 1 ⟨[((0, 0), [("a", "abc")])]⟩ okConnection) 0 Roles.Score
      = QVariant.double 0 ∧
    getData parseDecimal (sample 1 ⟨[((0, 0), [("a", "0")])]⟩ okConnection) 0 Roles.Score
      = QVariant.double 0 := by
  refine ⟨by decide, by decide, ?_, ?_⟩
  · rw [getData_score_loaded parseDecimal _ 0 "a" "abc" (by decide) (by decide)]
    have hp : parseDecimal "abc" = none := by decide
    simp [toDouble, hp]
  · rw [getData_score_loaded parseDecimal _ 0 "a" "0" (by decide) (by decide)]
    have hp : parseDecimal "0" = some 0 := by
      simp [parseDecimal, digitsValue]
    simp [toDouble, hp]

/-- C9, amended: for every loaded row whose cached score text cannot be parsed
as a number, `getData` with role `Score` returns the ordinary number 0, the
same value it returns for a loaded row whose score text parses to 0; no
malformed-row condition is surfaced. -/
theorem getData_unparsable_score (parse : String → Option ℚ) (m other : SortedSetKeyModel)
    (i j : Int) (member score member0 score0 : String)
    (hl : m.isRowLoaded i = true) (hget : m.m_rowsCache.get? i = some (member, score))
    (hp : parse score = none)
    (hl0 : other.isRowLoaded j = true)
    (hget0 : other.m_rowsCache.get? j = some (member0, score0))
    (hp0 : parse score0 = some 0) :
    getData parse m i Roles.Score = QVariant.double 0 ∧
    getData parse m i Roles.Score = getData parse other j Roles.Score := by
  rw [getData_score_loaded parse m i member score hl hget,
    getData_score_loaded parse other j member0 score0 hl0 hget0]
  simp [toDouble, hp, hp0]

theorem getData_unparsable_score_witness :
    getData parseDecimal (sample 1 ⟨[((0, 0), [("a", "abc")])]⟩ okConnection) 0 Roles.Score
      = QVariant.double 0 :=
  (getData_unparsable_score parseDecimal (sample 1 ⟨[((0, 0), [("a", "abc")])]⟩ okConnection)
    (sample 1 ⟨[((0, 0), [("a", "0")])]⟩ okConnection) 0 0 "a" "abc" "a" "0"
    (by decide) (by decide) (by decide) (by decide) (by decide)
    (by simp [parseDecimal, digitsValue])).1

/-! ## Connection failures -/

/-- C1: `updateRow` evaluated on the state with rows `("a","1.0")`,
`("b","2.0")` loaded and the valid new row `("a2","1.5")` for index 0. When the
connection raises on the `ZREM`, and likewise when it raises on the `ZADD`,
the error is signalled, both commands are sent, and the cached row 0 is
`("a2","1.5")` afterwards, not the old row `("a","1.0")`. -/
theorem updateRow_connection_failure_replaces_row :
    (sample 2 cacheAB zremDownConnection).m_rowsCache.get? 0 = some ("a", "1.0") ∧
    ((sample 2 cacheAB zremDownConnection).updateRow 0
        [("value", "a2"), ("score", "1.5")]).m_notifier
      = [Signal.error "Connection error: timeout"] ∧
    ((sample 2 cacheAB zremDownConnection).updateRow 0
        [("value", "a2"), ("score", "1.5")]).m_connection.sent
      = [⟨["ZREM", "k", "a"], 0⟩, ⟨["ZADD", "k", "1.5", "a2"], 0⟩] ∧
    ((sample 2 cacheAB zremDownConnection).updateRow 0
        [("value", "a2"), ("score", "1.5")]).m_rowsCache.get? 0 = some ("a2", "1.5") ∧
    ((sample 2 cacheAB zaddDownConnection).updateRow 0
        [("value", "a2"), ("score", "1.5")]).m_notifier
      = [Signal.error "Connection error: timeout"] ∧
    ((sample 2 cacheAB zaddDownConnection).updateRow 0
        [("value", "a2"), ("score", "1.5")]).m_rowsCache.get? 0 = some ("a2", "1.5") := by
  decide

end SortedSetKey
